import Mathlib

/-!
Verification of the VectorDBBench custom-dataset preparation pipeline.

This file gives a shallow embedding of the data-movement core of the
pipeline scripts under scripts/custom_dataset_prep:

* process_data.py      (the Interleaver: deterministic round-robin interleaving)
* merge_partitions.py  (the Streaming Merger and the Shuffler, plus the
                        per-partition main loop)
* balance_partitions.py (the Balancer: collect excess, distribute excess)
* filter_incomplete_queries.py (row-count validation in the filtering path)

Documents are represented by their ids (an arbitrary type, usually Nat in
the concrete scenarios); a data frame is a List of documents; a parquet
file on disk is the List it stores.  Fallible operations return Except.
-/

namespace VDB

/-- polars DataFrame.slice(start, len): the contiguous slice starting at
index start of length at most len, clamped to the frame bounds (empty when
start is past the end). -/
def slice {α : Type} (l : List α) (start len : Nat) : List α :=
  (l.drop start).take len

/-- math.ceil(total_rows / total_micro_chunks) on naturals, as computed in
process_data.py line 105.  (Python raises ZeroDivisionError when
total_micro_chunks = 0; theorems below therefore assume it positive.) -/
def chunk_size (total_rows total_micro_chunks : Nat) : Nat :=
  (total_rows + total_micro_chunks - 1) / total_micro_chunks

/-- Insert one account into a list of accounts sorted by key (helper for
the sorted() call on account ids in process_data.py line 61). -/
def insert_account {κ α : Type} [LinearOrder κ] (x : κ × List α) :
    List (κ × List α) → List (κ × List α)
  | [] => [x]
  | y :: ys => if x.1 ≤ y.1 then x :: y :: ys else y :: insert_account x ys

/-- sorted(files_by_account.keys()) in process_data.py line 61: accounts in
sorted key order (insertion sort; the resulting order is what matters). -/
def sort_accounts {κ α : Type} [LinearOrder κ] :
    List (κ × List α) → List (κ × List α)
  | [] => []
  | x :: xs => insert_account x (sort_accounts xs)

/-- The micro-chunk of one account for a global chunk index, process_data.py
lines 123-127: c_size = chunk_sizes[acc_id]; chunk = df.slice(global_chunk_idx
* c_size, c_size). -/
def account_chunk {α : Type} (S R : Nat) (docs : List α) (g : Nat) : List α :=
  slice docs (g * chunk_size docs.length (S * R)) (chunk_size docs.length (S * R))

/-- One output file of the Interleaver, process_data.py lines 113-138: for
round_idx in range(rounds_per_shard), global_chunk_idx = file_idx *
rounds_per_shard + round_idx; for each account in sorted order append its
chunk to the file buffer; the file is the concatenation of the buffer.
(The code appends a chunk only when it is nonempty, which leaves the
concatenation unchanged.) -/
def build_file {κ α : Type} (S R : Nat) (accounts : List (κ × List α))
    (file_idx : Nat) : List α :=
  (List.range R).flatMap (fun round_idx =>
    accounts.flatMap (fun a => account_chunk S R a.2 (file_idx * R + round_idx)))

/-- process_data.py, steps 2-3: the contents of the num_shards output files
(indexed by file_idx), built from the per-account deduplicated frames. -/
def process_data {κ α : Type} [LinearOrder κ] (accounts : List (κ × List α))
    (S R : Nat) : List (List α) :=
  (List.range S).map (build_file S R (sort_accounts accounts))

/-- The Interleaver contract exactly as the specification words it: for
global_chunk_index from 0 to total_micro_chunks - 1 and for every account
in sorted order, the slice of length chunk_size(a) starting at
global_chunk_index * chunk_size(a) is appended to the shard indexed
global_chunk_index // R.  Shard f therefore collects, in increasing g
order, the chunks of the g with g / R = f. -/
def spec_shard {κ α : Type} (S R f : Nat) (accounts : List (κ × List α)) : List α :=
  ((List.range (S * R)).filter (fun g => g / R = f)).flatMap (fun g =>
    accounts.flatMap (fun a =>
      slice a.2 (g * chunk_size a.2.length (S * R)) (chunk_size a.2.length (S * R))))

/-- The whole Interleaver output as the specification words it. -/
def spec_process_data {κ α : Type} [LinearOrder κ] (accounts : List (κ × List α))
    (S R : Nat) : List (List α) :=
  (List.range S).map (fun f => spec_shard S R f (sort_accounts accounts))

/-- Concrete scenario account A: 25 documents (ids 0..24). -/
def exA : List Nat := List.range 25

/-- Concrete scenario account B: 15 documents (ids 100..114). -/
def exB : List Nat := (List.range 15).map (fun i => 100 + i)

/-- The two scenario accounts, keyed 0 (A) and 1 (B); key order 0 < 1
mirrors the lexicographic order A < B. -/
def exAccounts : List (Nat × List Nat) := [(0, exA), (1, exB)]

/-- The global chunk indices assigned to shard f are exactly
f * R, f * R + 1, ..., f * R + (R - 1), in that order. -/
theorem range_mul_filter_div (S R f : Nat) (hf : f < S) :
    (List.range (S * R)).filter (fun g => decide (g / R = f)) =
      (List.range R).map (fun r => f * R + r) := by
  induction S with
  | zero => omega
  | succ S ih =>
    rcases Nat.eq_zero_or_pos R with hR | hR
    · subst hR; simp
    have hadd : (S + 1) * R = S * R + R := by ring
    rw [hadd, List.range_add, List.filter_append, List.filter_map]
    rcases Nat.lt_or_ge f S with hfS | hfS
    · have h2 : List.filter ((fun g => decide (g / R = f)) ∘ (fun x => S * R + x))
          (List.range R) = [] := by
        apply List.filter_eq_nil_iff.mpr
        intro r hr
        have hrR : r < R := List.mem_range.mp hr
        have : (S * R + r) / R = S + r / R := by
          rw [Nat.add_comm (S * R) r, Nat.mul_comm S R, Nat.add_mul_div_left r S hR]
          omega
        simp only [Function.comp, this]
        have : r / R = 0 := Nat.div_eq_of_lt hrR
        simp [this]
        omega
      rw [ih hfS, h2]
      simp
    · have hfeq : f = S := by omega
      have h1 : (List.range (S * R)).filter (fun g => decide (g / R = f)) = [] := by
        apply List.filter_eq_nil_iff.mpr
        intro g hg
        have hgSR : g < S * R := List.mem_range.mp hg
        have : g / R < S := (Nat.div_lt_iff_lt_mul hR).mpr (by omega)
        simp
        omega
      have h2 : List.filter ((fun g => decide (g / R = f)) ∘ (fun x => S * R + x))
          (List.range R) = List.range R := by
        apply List.filter_eq_self.mpr
        intro r hr
        have hrR : r < R := List.mem_range.mp hr
        have hdiv : (S * R + r) / R = S + r / R := by
          rw [Nat.add_comm (S * R) r, Nat.mul_comm S R, Nat.add_mul_div_left r S hR]
          omega
        have hr0 : r / R = 0 := Nat.div_eq_of_lt hrR
        simp [Function.comp, hdiv, hr0, hfeq]
      rw [h1, h2, List.nil_append, hfeq]

/-- On every shard index below S, the shard the specification describes is
the file the code builds. -/
theorem spec_shard_eq_build_file {κ α : Type} (S R f : Nat)
    (accounts : List (κ × List α)) (hf : f < S) :
    spec_shard S R f accounts = build_file S R accounts f := by
  unfold spec_shard build_file
  rw [range_mul_filter_div S R f hf, List.flatMap_map]
  rfl

/-- The Interleaver output matches the specification formula on all inputs. -/
theorem spec_process_data_eq {κ α : Type} [LinearOrder κ]
    (accounts : List (κ × List α)) (S R : Nat) :
    spec_process_data accounts S R = process_data accounts S R := by
  unfold spec_process_data process_data
  apply List.map_congr_left
  intro f hf
  exact spec_shard_eq_build_file S R f _ (List.mem_range.mp hf)

/-- Insertion keeps the account multiset. -/
theorem insert_account_perm {κ α : Type} [LinearOrder κ] (x : κ × List α)
    (l : List (κ × List α)) : (insert_account x l).Perm (x :: l) := by
  induction l with
  | nil => exact List.Perm.refl _
  | cons y ys ih =>
    by_cases h : x.1 ≤ y.1
    · simp [insert_account, h]
    · simp only [insert_account, h, if_false]
      exact (ih.cons y).trans (List.Perm.swap x y ys)

/-- Sorting the accounts keeps the account multiset. -/
theorem sort_accounts_perm {κ α : Type} [LinearOrder κ]
    (l : List (κ × List α)) : (sort_accounts l).Perm l := by
  induction l with
  | nil => exact List.Perm.refl _
  | cons x xs ih =>
    exact (insert_account_perm x (sort_accounts xs)).trans (ih.cons x)

/-- Interchanging the two iterations of a double flatMap permutes the
result: iterating chunks outside accounts or accounts outside chunks
yields the same multiset. -/
theorem flatMap_comm_perm {α β γ : Type} (l1 : List β) (l2 : List γ)
    (f : β → γ → List α) :
    (l1.flatMap fun x => l2.flatMap fun y => f x y).Perm
      (l2.flatMap fun y => l1.flatMap fun x => f x y) := by
  induction l1 with
  | nil => simp
  | cons x xs ih =>
    simp only [List.flatMap_cons]
    refine (List.Perm.append_left _ ih).trans ?_
    exact List.flatMap_append_perm l2 (fun y => f x y)
      (fun y => xs.flatMap fun x => f x y)

/-- Collapsing the (file, round) double loop of the Interleaver into the
single global chunk index g = file_idx * R + round_idx. -/
theorem range_mul_flatMap {α : Type} (S R : Nat) (h : Nat → List α) :
    (List.range S).flatMap (fun f => (List.range R).flatMap (fun r => h (f * R + r)))
      = (List.range (S * R)).flatMap h := by
  induction S with
  | zero => simp
  | succ S ih =>
    have hL : (List.range (S + 1)).flatMap
          (fun f => (List.range R).flatMap fun r => h (f * R + r))
        = ((List.range S).flatMap fun f => (List.range R).flatMap fun r => h (f * R + r))
          ++ (List.range R).flatMap (fun r => h (S * R + r)) := by
      rw [List.range_succ, List.flatMap_append]
      simp
    have hR2 : (List.range ((S + 1) * R)).flatMap h
        = (List.range (S * R)).flatMap h
          ++ (List.range R).flatMap (fun r => h (S * R + r)) := by
      have hadd : (S + 1) * R = S * R + R := by ring
      rw [hadd, List.range_add, List.flatMap_append, List.flatMap_map]
    rw [hL, hR2, ih]

/-- Cutting a list into n consecutive pieces of width cs recovers the list
as soon as n * cs covers its length. -/
theorem flatMap_slice_eq {α : Type} (n cs : Nat) (l : List α)
    (hcov : l.length ≤ n * cs) :
    (List.range n).flatMap (fun g => slice l (g * cs) cs) = l := by
  induction n generalizing l with
  | zero =>
    have : l = [] := by
      cases l with
      | nil => rfl
      | cons a t => simp at hcov
    simp [this]
  | succ n ih =>
    rw [List.range_succ_eq_map, List.flatMap_cons, List.flatMap_map]
    have hrest : ∀ g : Nat, slice l ((g + 1) * cs) cs = slice (l.drop cs) (g * cs) cs := by
      intro g
      unfold slice
      rw [List.drop_drop]
      congr 2
      ring
    have hlen : (l.drop cs).length ≤ n * cs := by
      rw [List.length_drop]
      have : (n + 1) * cs = n * cs + cs := by ring
      omega
    have hcong : (List.range n).flatMap (fun g => slice l ((g + 1) * cs) cs)
        = (List.range n).flatMap (fun g => slice (l.drop cs) (g * cs) cs) :=
      List.flatMap_congr (fun g _ => hrest g)
    have h0 : slice l (0 * cs) cs = l.take cs := by
      unfold slice
      simp
    calc slice l (0 * cs) cs ++
          (List.range n).flatMap (fun g => slice l ((g + 1) * cs) cs)
        = l.take cs ++ (List.range n).flatMap (fun g => slice (l.drop cs) (g * cs) cs) := by
          rw [h0, hcong]
      _ = l.take cs ++ l.drop cs := by rw [ih (l.drop cs) hlen]
      _ = l := List.take_append_drop cs l

/-- ceil covers: total_rows ≤ total_micro_chunks * chunk_size, provided
total_micro_chunks is positive (in Python a zero divisor raises). -/
theorem le_mul_chunk_size (rows tmc : Nat) (h : 0 < tmc) :
    rows ≤ tmc * chunk_size rows tmc := by
  unfold chunk_size
  rcases Nat.eq_zero_or_pos rows with h0 | h0
  · simp [h0]
  · have hm : rows + tmc - 1 = (rows - 1) + tmc := by omega
    rw [hm, Nat.add_div_right _ h]
    have hdm := Nat.div_add_mod (rows - 1) tmc
    have hlt : (rows - 1) % tmc < tmc := Nat.mod_lt _ h
    have : tmc * ((rows - 1) / tmc + 1) = tmc * ((rows - 1) / tmc) + tmc := by ring
    omega

/-- The documents a single account contributes across the whole micro-chunk
grid are exactly its document sequence, in order. -/
theorem account_chunks_cover {α : Type} (S R : Nat) (docs : List α)
    (hS : 0 < S) (hR : 0 < R) :
    (List.range (S * R)).flatMap (fun g => account_chunk S R docs g) = docs := by
  unfold account_chunk
  exact flatMap_slice_eq (S * R) (chunk_size docs.length (S * R)) docs
    (le_mul_chunk_size docs.length (S * R) (Nat.mul_pos hS hR))

/-- Interleaver conservation: the concatenation of all shard files is a
permutation of the concatenation of the per-account document sequences. -/
theorem process_data_conservation {κ α : Type} [LinearOrder κ]
    (accounts : List (κ × List α)) (S R : Nat) (hS : 0 < S) (hR : 0 < R) :
    ((process_data accounts S R).flatten).Perm (accounts.flatMap Prod.snd) := by
  unfold process_data build_file
  rw [← List.flatMap_def, range_mul_flatMap S R
    (fun g => (sort_accounts accounts).flatMap (fun a => account_chunk S R a.2 g))]
  refine (flatMap_comm_perm _ _ _).trans ?_
  have hcov : (sort_accounts accounts).flatMap
      (fun a => (List.range (S * R)).flatMap (fun g => account_chunk S R a.2 g))
      = (sort_accounts accounts).flatMap Prod.snd :=
    List.flatMap_congr (fun a _ => account_chunks_cover S R a.2 hS hR)
  rw [hcov]
  exact (sort_accounts_perm accounts).flatMap_right Prod.snd

/-!  ## Balancer (balance_partitions.py)  -/

/-- Phase 1 of balance_partitions.py (lines 44-77): for each of the five
source partitions in index order, keep the first T records when the count
exceeds T (df.head(T)) and collect the remainder (df.tail(count - T)) as
excess; otherwise copy the partition unchanged.  Returns the written
partitions and the list of per-partition excess frames in collection
order. -/
def collect_excess {α : Type} (T : Nat) :
    List (List α) → List (List α) × List (List α)
  | [] => ([], [])
  | df :: rest =>
    let p := collect_excess T rest
    if T < df.length then (df.take T :: p.1, df.drop T :: p.2)
    else (df :: p.1, p.2)

/-- polars pl.concat (balance_partitions.py line 81): concatenates a list
of frames, raising ValueError when the list is empty. -/
def pl_concat {α : Type} (dfs : List (List α)) : Except String (List α) :=
  if dfs.isEmpty then Except.error "cannot concat empty list"
  else Except.ok dfs.flatten

/-- Phase 2 of balance_partitions.py (lines 96-142): walk the sink
partitions (partition indices 5..9) with a cursor excess_offset into the
combined excess.  A partition below index 9 needs T - current docs; the
partition at index 9 needs everything remaining.  When the need is
positive and the cursor has not exhausted the pool, the slice
excess[offset : offset + needed] is appended and the cursor advances by
the number of records actually obtained; otherwise the partition is
copied unchanged. -/
def distribute_excess {α : Type} (T : Nat) (excess : List α) :
    Nat → Nat → List (List α) → List (List α)
  | _, _, [] => []
  | excess_offset, partition_idx, df :: rest =>
    let docs_needed : Int :=
      if partition_idx < 9 then (T : Int) - df.length
      else (excess.length : Int) - excess_offset
    if 0 < docs_needed ∧ excess_offset < excess.length then
      let docs_to_add := slice excess excess_offset docs_needed.toNat
      (df ++ docs_to_add) ::
        distribute_excess T excess (excess_offset + docs_to_add.length)
          (partition_idx + 1) rest
    else
      df :: distribute_excess T excess excess_offset (partition_idx + 1) rest

/-- main() of balance_partitions.py: partitions 00-04 are the sources of
Phase 1, partitions 05-09 the sinks of Phase 2; the combined excess comes
from pl.concat, which raises when no source partition produced any
excess. -/
def balance_main {α : Type} (T : Nat) (inputs : List (List α)) :
    Except String (List (List α)) :=
  let collected := collect_excess T (inputs.take 5)
  match pl_concat collected.2 with
  | Except.error e => Except.error e
  | Except.ok excess_combined =>
    Except.ok (collected.1 ++ distribute_excess T excess_combined 0 5 (inputs.drop 5))

/-- The written source partitions, pointwise: cap at the first T records
when over target, otherwise unchanged. -/
theorem collect_excess_fst {α : Type} (T : Nat) (srcs : List (List α)) :
    (collect_excess T srcs).1 =
      srcs.map (fun df => if T < df.length then df.take T else df) := by
  induction srcs with
  | nil => rfl
  | cons df rest ih =>
    by_cases h : T < df.length <;> simp [collect_excess, h, ih]

/-- Phase 1 conserves records: kept plus excess is exactly the input. -/
theorem collect_excess_sum {α : Type} (T : Nat) (srcs : List (List α)) :
    ((collect_excess T srcs).1.map List.length).sum
      + ((collect_excess T srcs).2.map List.length).sum
      = (srcs.map List.length).sum := by
  induction srcs with
  | nil => rfl
  | cons df rest ih =>
    by_cases h : T < df.length <;>
      simp [collect_excess, h, List.length_take, List.length_drop] <;> omega

/-- When no source partition exceeds T, Phase 1 collects no excess. -/
theorem collect_excess_nil {α : Type} (T : Nat) (srcs : List (List α))
    (h : ∀ df ∈ srcs, df.length ≤ T) : (collect_excess T srcs).2 = [] := by
  induction srcs with
  | nil => rfl
  | cons df rest ih =>
    have hdf : ¬ T < df.length := by
      have := h df (by simp)
      omega
    simp only [collect_excess, hdf, if_false]
    exact ih (fun x hx => h x (by simp [hx]))

/-- Once the cursor has exhausted the pool, every remaining sink partition
is copied unchanged (the second conjunct of the guard is false). -/
theorem distribute_excess_drained {α : Type} (T : Nat) (excess : List α)
    (idx : Nat) (sinks : List (List α)) :
    distribute_excess T excess excess.length idx sinks = sinks := by
  induction sinks generalizing idx with
  | nil => rfl
  | cons df rest ih =>
    have hguard : ¬ (0 < (if idx < 9 then (T : Int) - df.length
        else (excess.length : Int) - excess.length)
        ∧ excess.length < excess.length) := by
      intro h
      exact absurd h.2 (lt_irrefl _)
    simp only [distribute_excess, hguard, if_false]
    rw [ih]

/-- The record count a sink gains in one step: the slice obtained from the
cursor has length min(requested, remaining pool). -/
theorem slice_length {α : Type} (excess : List α) (o n : Nat) :
    (slice excess o n).length = min n (excess.length - o) := by
  unfold slice
  rw [List.length_take, List.length_drop]

/-- Phase 2 drains the pool completely whenever the walk reaches partition
index 9 (the absorber): the final counts sum to the initial sink counts
plus everything the cursor had not yet consumed. -/
theorem distribute_excess_sum {α : Type} (T : Nat) (excess : List α) :
    ∀ (sinks : List (List α)) (o idx : Nat), o ≤ excess.length → idx ≤ 9 →
      9 < idx + sinks.length →
      ((distribute_excess T excess o idx sinks).map List.length).sum
        = (sinks.map List.length).sum + (excess.length - o) := by
  intro sinks
  induction sinks with
  | nil =>
    intro o idx ho hi habs
    simp at habs
    omega
  | cons df rest ih =>
    intro o idx ho hi habs
    by_cases hguard : 0 < (if idx < 9 then (T : Int) - df.length
        else (excess.length : Int) - o) ∧ o < excess.length
    · simp only [distribute_excess, if_pos hguard, List.map_cons, List.sum_cons,
        List.length_append, slice_length]
      rcases Nat.lt_or_ge idx 9 with h9 | h9
      · have hT : df.length < T := by
          have := hguard.1
          simp only [if_pos h9] at this
          omega
        have htn : (if idx < 9 then (T : Int) - df.length
            else (excess.length : Int) - o).toNat = T - df.length := by
          simp only [if_pos h9]
          omega
        rw [htn, ih _ _ (by omega) (by omega) (by simp at habs ⊢; omega)]
        omega
      · have h9e : ¬ idx < 9 := by omega
        have htn : (if idx < 9 then (T : Int) - df.length
            else (excess.length : Int) - o).toNat = excess.length - o := by
          simp only [if_neg h9e]
          omega
        have hmin : min (excess.length - o) (excess.length - o) = excess.length - o :=
          Nat.min_self _
        rw [htn, hmin]
        have hfull : o + (excess.length - o) = excess.length := by omega
        rw [hfull, distribute_excess_drained]
        omega
    · simp only [distribute_excess, if_neg hguard, List.map_cons, List.sum_cons]
      rcases Nat.lt_or_ge idx 9 with h9 | h9
      · rw [ih _ _ ho (by omega) (by simp at habs ⊢; omega)]
        omega
      · have h9e : idx = 9 := by omega
        have hoe : o = excess.length := by
          by_contra hne
          apply hguard
          constructor
          · simp [h9e]
            omega
          · omega
        subst hoe
        rw [distribute_excess_drained]
        omega

/-- A successful balance run is Phase 1 output followed by Phase 2 output,
and some source partition did exceed T (otherwise pl.concat raised). -/
theorem balance_main_ok {α : Type} (T : Nat) (inputs outs : List (List α))
    (h : balance_main T inputs = Except.ok outs) :
    (collect_excess T (inputs.take 5)).2 ≠ [] ∧
      outs = (collect_excess T (inputs.take 5)).1 ++
        distribute_excess T ((collect_excess T (inputs.take 5)).2.flatten)
          0 5 (inputs.drop 5) := by
  unfold balance_main pl_concat at h
  by_cases he : (collect_excess T (inputs.take 5)).2.isEmpty
  · simp [he] at h
  · simp [he] at h
    exact ⟨by simpa using he, h.symm⟩

/-- When no source partition exceeds T, the excess list is empty and
pl.concat raises: the balancer aborts before Phase 2. -/
theorem balance_main_error {α : Type} (T : Nat) (inputs : List (List α))
    (h : ∀ df ∈ inputs.take 5, df.length ≤ T) :
    balance_main T inputs = Except.error "cannot concat empty list" := by
  simp [balance_main, pl_concat, collect_excess_nil T _ h]

/-- Balancer conservation: a successful run neither creates nor destroys
records. -/
theorem balance_main_conservation {α : Type} (T : Nat)
    (inputs outs : List (List α)) (hlen : inputs.length = 10)
    (h : balance_main T inputs = Except.ok outs) :
    (outs.map List.length).sum = (inputs.map List.length).sum := by
  obtain ⟨hne, houts⟩ := balance_main_ok T inputs outs h
  subst houts
  rw [List.map_append, List.sum_append]
  have h1 := collect_excess_sum T (inputs.take 5)
  have hd5 : (inputs.drop 5).length = 5 := by
    rw [List.length_drop]
    omega
  have h2 := distribute_excess_sum T ((collect_excess T (inputs.take 5)).2.flatten)
      (inputs.drop 5) 0 5 (by omega) (by omega) (by omega)
  rw [h2]
  have hflat : ((collect_excess T (inputs.take 5)).2.flatten).length
      = ((collect_excess T (inputs.take 5)).2.map List.length).sum :=
    List.length_flatten _
  have hsplit : (inputs.map List.length).sum
      = ((inputs.take 5).map List.length).sum
        + ((inputs.drop 5).map List.length).sum := by
    rw [← List.sum_append, ← List.map_append, List.take_append_drop]
  omega

/-- Pointwise bound for Phase 2 below the absorber: a sink never ends
above both T and its own starting count.  In particular a sink that
starts at or below T ends at or below T. -/
theorem distribute_excess_getD_le {α : Type} (T : Nat) (excess : List α) :
    ∀ (sinks : List (List α)) (o idx i : Nat), idx + i < 9 →
      ((distribute_excess T excess o idx sinks).getD i []).length
        ≤ max T ((sinks.getD i []).length) := by
  intro sinks
  induction sinks with
  | nil =>
    intro o idx i h
    simp [distribute_excess]
  | cons df rest ih =>
    intro o idx i h
    by_cases hguard : 0 < (if idx < 9 then (T : Int) - df.length
        else (excess.length : Int) - o) ∧ o < excess.length
    · simp only [distribute_excess, if_pos hguard]
      cases i with
      | zero =>
        have h9 : idx < 9 := by omega
        have hT : df.length < T := by
          have := hguard.1
          simp only [if_pos h9] at this
          omega
        have htn : (if idx < 9 then (T : Int) - df.length
            else (excess.length : Int) - o).toNat = T - df.length := by
          simp only [if_pos h9]
          omega
        simp only [List.getD_cons_zero, List.length_append, htn, slice_length]
        omega
      | succ i =>
        simp only [List.getD_cons_succ]
        exact ih _ _ _ (by omega)
    · simp only [distribute_excess, if_neg hguard]
      cases i with
      | zero => simp
      | succ i =>
        simp only [List.getD_cons_succ]
        exact ih _ _ _ (by omega)

/-- Pointwise description of a successful balancer run on the source
partitions: capped at their first T records when over target, otherwise
written back unchanged. -/
theorem balance_main_sources {α : Type} (T : Nat) (inputs outs : List (List α))
    (hlen : inputs.length = 10) (h : balance_main T inputs = Except.ok outs)
    (i : Nat) (hi : i < 5) :
    outs.getD i [] = (if T < (inputs.getD i []).length
      then (inputs.getD i []).take T else inputs.getD i []) := by
  obtain ⟨hne, houts⟩ := balance_main_ok T inputs outs h
  subst houts
  have hc1 : (collect_excess T (inputs.take 5)).1
      = (inputs.take 5).map (fun df => if T < df.length then df.take T else df) :=
    collect_excess_fst T _
  have ht5 : (inputs.take 5).length = 5 := by
    rw [List.length_take]
    omega
  have hi5 : i < ((collect_excess T (inputs.take 5)).1).length := by
    rw [hc1, List.length_map]
    omega
  rw [List.getD_eq_getElem?_getD, List.getElem?_append_left hi5, hc1,
    List.getElem?_map]
  have hito : i < (inputs.take 5).length := by omega
  rw [List.getElem?_eq_getElem hito]
  have hilen : i < inputs.length := by omega
  have hgetT : (inputs.take 5)[i] = inputs[i] := List.getElem_take ..
  have hgi2 : inputs[i]? = some inputs[i] := List.getElem?_eq_getElem hilen
  simp [hgetT, hgi2]

/-- Pointwise bound of a successful balancer run on the non-absorber sink
partitions (indices 5..8). -/
theorem balance_main_sinks {α : Type} (T : Nat) (inputs outs : List (List α))
    (hlen : inputs.length = 10) (h : balance_main T inputs = Except.ok outs)
    (i : Nat) (hi5 : 5 ≤ i) (hi9 : i < 9) :
    (outs.getD i []).length ≤ max T ((inputs.getD i []).length) := by
  obtain ⟨hne, houts⟩ := balance_main_ok T inputs outs h
  subst houts
  have hc1 : ((collect_excess T (inputs.take 5)).1).length = 5 := by
    rw [collect_excess_fst, List.length_map, List.length_take]
    omega
  have hb := distribute_excess_getD_le T
    ((collect_excess T (inputs.take 5)).2.flatten) (inputs.drop 5) 0 5 (i - 5)
    (by omega)
  rw [List.getD_eq_getElem?_getD, List.getElem?_append_right (by omega), hc1,
    ← List.getD_eq_getElem?_getD]
  have hgd : (inputs.drop 5).getD (i - 5) [] = inputs.getD i [] := by
    have hdlen : (inputs.drop 5).length = 5 := by
      rw [List.length_drop]
      omega
    rw [List.getD_eq_getElem?_getD, List.getD_eq_getElem?_getD,
      List.getElem?_drop]
    have : 5 + (i - 5) = i := by omega
    rw [this]
  rw [← hgd]
  exact hb

/-!  ## Streaming Merger and Shuffler (merge_partitions.py)  -/

/-- One expected per-account partition file as merge_partition sees it:
absent on disk, present but raising on read, or readable with its rows. -/
inductive PartFile (α : Type) where
  | missing
  | unreadable (msg : String)
  | found (rows : List α)

/-- What merge_partition (merge_partitions.py lines 55-98) accumulates:
the rows written to the output file, the running total_docs, the
accounts_processed counter, and the number of missing-file warnings it
logged. -/
structure MergeOut (α : Type) where
  rows : List α
  total_docs : Nat
  accounts_processed : Nat
  warnings : Nat

/-- merge_partition: walk the account files in order; a missing file logs
a warning and is skipped; a file whose open raises logs an error and is
skipped; a readable file has its batches appended to the output and its
row count added to total_docs. -/
def merge_partition {α : Type} : List (PartFile α) → MergeOut α
  | [] => ⟨[], 0, 0, 0⟩
  | PartFile.missing :: rest =>
    let r := merge_partition rest
    ⟨r.rows, r.total_docs, r.accounts_processed, r.warnings + 1⟩
  | PartFile.unreadable _ :: rest => merge_partition rest
  | PartFile.found rows :: rest =>
    let r := merge_partition rest
    ⟨rows ++ r.rows, rows.length + r.total_docs,
      r.accounts_processed + 1, r.warnings⟩

/-- The rows of a file that was actually found and read. -/
def found_rows {α : Type} : PartFile α → Option (List α)
  | PartFile.found rows => some rows
  | _ => none

/-- Whether an expected file is missing. -/
def is_missing {α : Type} : PartFile α → Bool
  | PartFile.missing => true
  | _ => false

/-- The merger never aborts and its returned count is the sum of the
counts of the files actually found and read; it logs one warning per
missing file, and the written output is the concatenation of the rows
actually read, in account order. -/
theorem merge_partition_spec {α : Type} (files : List (PartFile α)) :
    (merge_partition files).total_docs
        = (((files.filterMap found_rows).map List.length).sum)
      ∧ (merge_partition files).warnings = files.countP is_missing
      ∧ (merge_partition files).rows = (files.filterMap found_rows).flatten := by
  induction files with
  | nil => exact ⟨rfl, rfl, rfl⟩
  | cons f rest ih =>
    obtain ⟨ih1, ih2, ih3⟩ := ih
    cases f with
    | missing =>
      refine ⟨by simpa [merge_partition, found_rows] using ih1, ?_, ?_⟩
      · simp [merge_partition, is_missing, List.countP_cons, ih2]
      · simpa [merge_partition, found_rows] using ih3
    | unreadable msg =>
      refine ⟨by simpa [merge_partition, found_rows] using ih1, ?_, ?_⟩
      · simp [merge_partition, is_missing, List.countP_cons, ih2]
      · simpa [merge_partition, found_rows] using ih3
    | found rows =>
      refine ⟨by simp [merge_partition, found_rows, ih1], ?_, ?_⟩
      · simp [merge_partition, is_missing, List.countP_cons, ih2]
      · simp [merge_partition, found_rows, ih3]

/-- One step of the linear congruential generator used to model the seeded
pseudorandom source behind polars sample(shuffle=True, seed). -/
def lcg_next (s : Nat) : Nat :=
  (6364136223846793005 * s + 1442695040888963407) % (2 ^ 64)

/-- Modelled behavior of polars DataFrame.sample(fraction=1.0,
shuffle=True, seed=s) as called in merge_partitions.py line 112: a seeded
Fisher-Yates walk that repeatedly removes the element at a
state-determined index.  The polars call is a full pseudorandom
permutation; this model reproduces that contract with an explicit
generator so that the permutation law is checkable. -/
def sample_shuffle {α : Type} (s : Nat) (l : List α) : List α :=
  if h : l.length = 0 then []
  else
    have hi : s % l.length < l.length := Nat.mod_lt _ (Nat.pos_of_ne_zero h)
    l.get ⟨s % l.length, hi⟩ ::
      sample_shuffle (lcg_next s) (l.eraseIdx (s % l.length))
termination_by l.length
decreasing_by
  rw [List.length_eraseIdx]
  simp [hi]
  omega

/-- Removing the element at index i and putting it in front permutes the
list. -/
theorem cons_eraseIdx_perm {α : Type} :
    ∀ (l : List α) (i : Nat) (h : i < l.length),
      ((l.get ⟨i, h⟩) :: l.eraseIdx i).Perm l := by
  intro l
  induction l with
  | nil =>
    intro i h
    simp at h
  | cons a t ih =>
    intro i h
    cases i with
    | zero => simp [List.eraseIdx]
    | succ j =>
      have hj : j < t.length := by simpa using h
      have step : ((t.get ⟨j, hj⟩) :: a :: t.eraseIdx j).Perm (a :: t) :=
        (List.Perm.swap a (t.get ⟨j, hj⟩) (t.eraseIdx j)).trans ((ih j hj).cons a)
      simpa [List.eraseIdx] using step

/-- The modelled shuffle is a pure permutation for every seed and input. -/
theorem sample_shuffle_perm {α : Type} (s : Nat) (l : List α) :
    (sample_shuffle s l).Perm l := by
  generalize hn : l.length = n
  induction n generalizing s l with
  | zero =>
    have : l = [] := List.eq_nil_of_length_eq_zero hn
    subst this
    simp [sample_shuffle]
  | succ n ih =>
    have hne : l.length ≠ 0 := by omega
    rw [sample_shuffle]
    simp only [hne, dif_neg]
    have hi : s % l.length < l.length := Nat.mod_lt _ (Nat.pos_of_ne_zero hne)
    have hlen : (l.eraseIdx (s % l.length)).length = n := by
      rw [List.length_eraseIdx]
      simp [hi]
      omega
    exact ((ih (lcg_next s) _ hlen).cons _).trans (cons_eraseIdx_perm l _ hi)

/-- A shard file as the Shuffler sees it: its stored content plus the
injected outcome of the read and the write attempt (true = the call
raises). -/
structure ShardFile (α : Type) where
  content : List α
  read_fails : Bool
  write_fails : Bool

/-- shuffle_file (merge_partitions.py lines 101-125): read the file (may
raise), shuffle with the fixed seed, write back in place (may raise).
On success returns the original row count; on any failure the error is
logged and 0 is returned, the run continuing.  A file whose write raised
is left in its previous state in this model. -/
def shuffle_file {α : Type} (seed : Nat) (f : ShardFile α) : ShardFile α × Nat :=
  if f.read_fails then (f, 0)
  else if f.write_fails then (f, 0)
  else ({ f with content := sample_shuffle seed f.content }, f.content.length)

/-- The observable stage events of the main loop of merge_partitions.py,
tagged with the partition index they concern. -/
inductive Ev where
  | merge_start (i : Nat)
  | merge_end (i : Nat)
  | shuffle_start (i : Nat)
  | shuffle_end (i : Nat)
deriving DecidableEq

/-- The partition index an event concerns. -/
def ev_part : Ev → Nat
  | Ev.merge_start i => i
  | Ev.merge_end i => i
  | Ev.shuffle_start i => i
  | Ev.shuffle_end i => i

/-- Whether an event belongs to the merge stage. -/
def is_merge_ev : Ev → Bool
  | Ev.merge_start _ => true
  | Ev.merge_end _ => true
  | _ => false

/-- Whether an event belongs to the shuffle stage. -/
def is_shuffle_ev : Ev → Bool
  | Ev.shuffle_start _ => true
  | Ev.shuffle_end _ => true
  | _ => false

/-- The events of one iteration of the partition loop
(merge_partitions.py lines 164-186): Step 1 merge, then Step 3 shuffle of
the same partition, with only sleeps in between. -/
def partition_events (i : Nat) : List Ev :=
  [Ev.merge_start i, Ev.merge_end i, Ev.shuffle_start i, Ev.shuffle_end i]

/-- The event trace of a full run over partitions 0..n-1. -/
def main_trace (n : Nat) : List Ev :=
  (List.range n).flatMap partition_events

/-- The ordering discipline the specification asserts: every merge event
of any shard occurs before every shuffle event of any shard. -/
def merge_all_before_shuffle_all (tr : List Ev) : Prop :=
  ∀ a ∈ tr, ∀ b ∈ tr, is_merge_ev a = true → is_shuffle_ev b = true →
    tr.indexOf a < tr.indexOf b

instance merge_all_before_shuffle_all_dec (tr : List Ev) :
    Decidable (merge_all_before_shuffle_all tr) := by
  unfold merge_all_before_shuffle_all
  infer_instance

/-- The per-partition job of one main-loop iteration: the account files
to merge for this partition and the injected shuffle read/write
outcomes. -/
structure PartitionJob (α : Type) where
  files : List (PartFile α)
  read_fails : Bool
  write_fails : Bool

/-- One iteration of the main loop of merge_partitions.py: merge the
partition into its shard file, record the merged count, then shuffle the
shard file in place; returns the final file, the count entered into
partition_counts, and the count shuffle_file returned. -/
def process_partition {α : Type} (seed : Nat) (j : PartitionJob α) :
    ShardFile α × Nat × Nat :=
  let m := merge_partition j.files
  let s := shuffle_file seed ⟨m.rows, j.read_fails, j.write_fails⟩
  (s.1, m.total_docs, s.2)

/-- The whole main loop: every partition is processed in order; no
iteration can abort the loop. -/
def main_run {α : Type} (seed : Nat) (jobs : List (PartitionJob α)) :
    List (ShardFile α × Nat × Nat) :=
  jobs.map (process_partition seed)

/-- Every event of the trace of a run over n partitions concerns a
partition below n. -/
theorem main_trace_part_lt (n : Nat) :
    ∀ e ∈ main_trace n, ev_part e < n := by
  intro e he
  obtain ⟨i, hi, hei⟩ := List.mem_flatMap.mp he
  have hin : i < n := List.mem_range.mp hi
  have : ev_part e = i := by
    simp only [partition_events, List.mem_cons, List.not_mem_nil, or_false] at hei
    rcases hei with h | h | h | h <;> subst h <;> rfl
  omega

/-- Appending the events of partition n to the trace of a run over n
partitions gives the trace of a run over n+1 partitions. -/
theorem main_trace_succ (n : Nat) :
    main_trace (n + 1) = main_trace n ++ partition_events n := by
  unfold main_trace
  rw [List.range_succ, List.flatMap_append]
  simp

/-- The trace never repeats an event. -/
theorem main_trace_nodup (n : Nat) : (main_trace n).Nodup := by
  induction n with
  | zero => simp [main_trace]
  | succ n ih =>
    rw [main_trace_succ]
    refine ih.append (by simp [partition_events]) ?_
    intro e he hee
    have h1 := main_trace_part_lt n e he
    have h2 : ev_part e = n := by
      simp only [partition_events, List.mem_cons, List.not_mem_nil, or_false] at hee
      rcases hee with h | h | h | h <;> subst h <;> rfl
    omega

/-- Within the trace, each partition runs its merge to completion and
then its shuffle, in that order. -/
theorem main_trace_per_partition (n i : Nat) (hi : i < n) :
    (partition_events i).Sublist (main_trace n) := by
  induction n with
  | zero => omega
  | succ n ih =>
    rw [main_trace_succ]
    rcases Nat.lt_or_ge i n with h | h
    · exact (ih h).trans (List.sublist_append_left _ _)
    · have : i = n := by omega
      subst this
      exact List.sublist_append_right _ _

/-- Within the trace, partition i finishes its shuffle before partition
j starts its merge whenever i < j. -/
theorem main_trace_sequential (n i j : Nat) (hij : i < j) (hj : j < n) :
    [Ev.shuffle_end i, Ev.merge_start j].Sublist (main_trace n) := by
  induction n with
  | zero => omega
  | succ n ih =>
    rw [main_trace_succ]
    rcases Nat.lt_or_ge j n with h | h
    · exact (ih h).trans (List.sublist_append_left _ _)
    · have hj' : j = n := by omega
      have hin : i < n := by omega
      have h1 : [Ev.shuffle_end i].Sublist (main_trace n) := by
        apply List.singleton_sublist.mpr
        apply List.mem_flatMap.mpr
        exact ⟨i, List.mem_range.mpr hin, by simp [partition_events]⟩
      have h2 : [Ev.merge_start j].Sublist (partition_events n) := by
        apply List.singleton_sublist.mpr
        simp [partition_events, hj']
      exact h1.append h2

/-!  ## Filtering path (filter_incomplete_queries.py)  -/

/-- neighbor_count = len(neighbors) if neighbors else 0 in
filter_incomplete_queries.py line 146: a null entry counts 0 (and an
empty list also counts 0 = its length). -/
def neighbor_count : Option (List Nat) → Nat
  | none => 0
  | some l => l.length

/-- What the filtering loop accumulates: the filtered queries and
neighbors with re-sequenced ids, the id-mapping rows, and the removed
counter. -/
structure FilterResult (α : Type) where
  filtered_queries : List (Nat × α)
  filtered_neighbors : List (Nat × Option (List Nat))
  id_mapping : List (Nat × Nat × String × Nat)
  removed_count : Nat

/-- The filtering loop of filter_incomplete_queries.py lines 142-171,
walking the common row index with a running new_id: a row whose neighbor
count reaches the threshold is kept under id new_id+1, any other row
increments removed_count. -/
def filter_loop {α : Type} (min_neighbors : Nat) (extract : α → String) :
    Nat → List ((Nat × α) × Option (List Nat)) → FilterResult α
  | _, [] => ⟨[], [], [], 0⟩
  | new_id, ((old_id, q), nbrs) :: rest =>
    if min_neighbors ≤ neighbor_count nbrs then
      let r := filter_loop min_neighbors extract (new_id + 1) rest
      ⟨(new_id + 1, q) :: r.filtered_queries,
        (new_id + 1, nbrs) :: r.filtered_neighbors,
        (new_id + 1, old_id, extract q, neighbor_count nbrs) :: r.id_mapping,
        r.removed_count⟩
    else
      let r := filter_loop min_neighbors extract new_id rest
      ⟨r.filtered_queries, r.filtered_neighbors, r.id_mapping,
        r.removed_count + 1⟩

/-- main() of filter_incomplete_queries.py from line 122: when the row
counts of the queries table and the neighbors table disagree it returns
exit status 1 before producing any output; otherwise it runs the
filtering loop over the paired rows and writes its results. -/
def filter_main {α : Type} (queries : List (Nat × α))
    (neighbors : List (Option (List Nat))) (min_neighbors : Nat)
    (extract : α → String) : Except Nat (FilterResult α) :=
  if queries.length ≠ neighbors.length then Except.error 1
  else Except.ok (filter_loop min_neighbors extract 0 (queries.zip neighbors))

/-!  ## Step behavior of the Balancer Distribute phase (for claim C3)  -/

/-- One non-absorber step of Phase 2 with a positive deficit and a
non-exhausted pool: the sink pulls the slice at the cursor, gaining
exactly min(deficit, remaining pool) records, and the cursor advances by
that amount. -/
theorem distribute_excess_step {α : Type} (T : Nat) (excess : List α)
    (o idx : Nat) (df : List α) (rest : List (List α))
    (hidx : idx < 9) (hdef : df.length < T) (hpool : o < excess.length) :
    distribute_excess T excess o idx (df :: rest)
        = (df ++ slice excess o (T - df.length)) ::
            distribute_excess T excess
              (o + min (T - df.length) (excess.length - o)) (idx + 1) rest
      ∧ (df ++ slice excess o (T - df.length)).length
          = df.length + min (T - df.length) (excess.length - o) := by
  have hguard : 0 < (if idx < 9 then (T : Int) - df.length
      else (excess.length : Int) - o) ∧ o < excess.length := by
    constructor
    · simp only [if_pos hidx]
      omega
    · exact hpool
  have htn : (if idx < 9 then (T : Int) - df.length
      else (excess.length : Int) - o).toNat = T - df.length := by
    simp only [if_pos hidx]
    omega
  constructor
  · simp only [distribute_excess, if_pos hguard, htn, slice_length]
  · rw [List.length_append, slice_length]

/-!  ## Concrete scenario data  -/

/-- n consecutive document ids starting at base. -/
def doc_ids (base n : Nat) : List Nat :=
  (List.range n).map (fun j => base + j)

/-- Balancer scenario input: five source shards of 12 records and five
sink shards of 7 records. -/
def c3_inputs : List (List Nat) :=
  [doc_ids 0 12, doc_ids 100 12, doc_ids 200 12, doc_ids 300 12, doc_ids 400 12,
   doc_ids 500 7, doc_ids 600 7, doc_ids 700 7, doc_ids 800 7, doc_ids 900 7]

/-- The balancer output on c3_inputs with target 10. -/
def c3_outs : List (List Nat) :=
  [doc_ids 0 10, doc_ids 100 10, doc_ids 200 10, doc_ids 300 10, doc_ids 400 10,
   doc_ids 500 7 ++ [10, 11, 110], doc_ids 600 7 ++ [111, 210, 211],
   doc_ids 700 7 ++ [310, 311, 410], doc_ids 800 7 ++ [411], doc_ids 900 7]

/-- Balancer input in which sink partition 05 starts above the target. -/
def c4_inputs : List (List Nat) :=
  [[0, 1, 2], [3], [4], [5], [6], [7, 8, 9], [10], [11], [12], [13]]

/-- The balancer output on c4_inputs with target 2: sink partition 05
still holds its three records. -/
def c4_outs : List (List Nat) :=
  [[0, 1], [3], [4], [5], [6], [7, 8, 9], [10, 2], [11], [12], [13]]

/-- Conservation witness input: one over-target source, empty sinks. -/
def c2_inputs : List (List Nat) :=
  [[1, 2], [], [], [], [], [], [], [], [], []]

/-- The balancer output on c2_inputs with target 1. -/
def c2_outs : List (List Nat) :=
  [[1], [], [], [], [], [2], [], [], [], []]

/-!  ## The claims  -/

/-- C1 (amended): the Interleaver with S shards and R rounds per shard
realizes the specification formula exactly — chunk_size(a) =
ceil(count(a) / (S*R)), and for every global chunk index g in increasing
order and every account in sorted order, the slice of length
chunk_size(a) at g*chunk_size(a) is appended to the shard indexed
g // R.  In the concrete scenario (A with 25 docs, B with 15, S=2, R=2)
shard 0 is A[0:7]+B[0:4]+A[7:14]+B[4:8] with 22 docs and shard 1 is
A[14:21]+B[8:12]+A[21:25]+B[12:15] with 18 docs — not the 14 the claim
states. -/
theorem C1_interleaver_formula :
    (∀ (κ α : Type) [LinearOrder κ] (accounts : List (κ × List α)) (S R : Nat),
        spec_process_data accounts S R = process_data accounts S R)
    ∧ process_data exAccounts 2 2 =
        [slice exA 0 7 ++ slice exB 0 4 ++ slice exA 7 7 ++ slice exB 4 4,
         slice exA 14 7 ++ slice exB 8 4 ++ slice exA 21 4 ++ slice exB 12 3]
    ∧ (process_data exAccounts 2 2).map List.length = [22, 18] :=
  ⟨fun κ α _ accounts S R => spec_process_data_eq accounts S R,
   by decide, by decide⟩

/-- C1 counterexample: in the stated scenario shard 1 holds 18 documents,
not 14. -/
theorem C1_shard1_not_14 :
    ¬ ((process_data exAccounts 2 2).map List.length = [22, 14]) := by
  decide

/-- C2: conservation.  The multiset of documents across all Interleaver
shards is exactly the multiset across all (deduplicated) accounts, and a
successful Balancer run only moves records between shards: the final
counts sum to the input counts. -/
theorem C2_conservation :
    (∀ (κ α : Type) [LinearOrder κ] (accounts : List (κ × List α)) (S R : Nat),
        0 < S → 0 < R →
        ((process_data accounts S R).flatten).Perm (accounts.flatMap Prod.snd))
    ∧ (∀ (α : Type) (T : Nat) (inputs outs : List (List α)),
        inputs.length = 10 → balance_main T inputs = Except.ok outs →
        (outs.map List.length).sum = (inputs.map List.length).sum) :=
  ⟨fun κ α _ accounts S R hS hR => process_data_conservation accounts S R hS hR,
   fun α T inputs outs h1 h2 => balance_main_conservation T inputs outs h1 h2⟩

/-- C2 witness: both conjuncts at concrete inputs. -/
theorem C2_conservation_witness :
    (0 < 1 ∧ 0 < 2
      ∧ ((process_data [(0, [5, 6, 7])] 1 2).flatten).Perm
          ([((0 : Nat), [5, 6, 7])].flatMap Prod.snd))
    ∧ (c2_inputs.length = 10
      ∧ balance_main 1 c2_inputs = Except.ok c2_outs
      ∧ (c2_outs.map List.length).sum = (c2_inputs.map List.length).sum) :=
  ⟨⟨by decide, by decide, C2_conservation.1 Nat Nat [(0, [5, 6, 7])] 1 2
      (by decide) (by decide)⟩,
   ⟨rfl, rfl, C2_conservation.2 Nat 1 c2_inputs c2_outs rfl rfl⟩⟩

/-- C3: in the Distribute step a non-absorber sink with a positive
deficit and a non-exhausted pool pulls exactly min(deficit, remaining)
records at the cursor (first conjunct); reaching the absorber drains the
pool completely (second conjunct); and in the concrete scenario (five
sources of 12, target 10, five sinks of 7) the final counts are
10,10,10,10,10 for the sources, then 10,10,10,8 for the non-absorber
sinks in cursor order, the absorber remaining at 7. -/
theorem C3_distribute_step_and_drain :
    (∀ (T : Nat) (excess : List Nat) (o idx : Nat) (df : List Nat)
        (rest : List (List Nat)), idx < 9 → df.length < T → o < excess.length →
        distribute_excess T excess o idx (df :: rest)
            = (df ++ slice excess o (T - df.length)) ::
                distribute_excess T excess
                  (o + min (T - df.length) (excess.length - o)) (idx + 1) rest
          ∧ (df ++ slice excess o (T - df.length)).length
              = df.length + min (T - df.length) (excess.length - o))
    ∧ (∀ (T : Nat) (excess : List Nat) (sinks : List (List Nat)) (o idx : Nat),
        o ≤ excess.length → idx ≤ 9 → 9 < idx + sinks.length →
        ((distribute_excess T excess o idx sinks).map List.length).sum
          = (sinks.map List.length).sum + (excess.length - o))
    ∧ (balance_main 10 c3_inputs).map (fun outs => outs.map List.length)
        = Except.ok [10, 10, 10, 10, 10, 10, 10, 10, 8, 7] :=
  ⟨fun T excess o idx df rest h1 h2 h3 =>
      distribute_excess_step T excess o idx df rest h1 h2 h3,
   fun T excess sinks o idx h1 h2 h3 =>
      distribute_excess_sum T excess sinks o idx h1 h2 h3,
   rfl⟩

/-- C3 witness: one concrete non-absorber step with deficit 2 against a
pool of 3, and one concrete drain. -/
theorem C3_distribute_witness :
    (5 < 9 ∧ ([1, 2, 3, 4, 5, 6, 7, 8] : List Nat).length < 10
      ∧ 0 < ([90, 91, 92] : List Nat).length
      ∧ distribute_excess 10 [90, 91, 92] 0 5 [[1, 2, 3, 4, 5, 6, 7, 8]]
          = ([1, 2, 3, 4, 5, 6, 7, 8] ++ slice [90, 91, 92] 0 2) ::
              distribute_excess 10 [90, 91, 92] 2 6 []
      ∧ ([1, 2, 3, 4, 5, 6, 7, 8] ++ slice [90, 91, 92] 0 2).length = 10)
    ∧ ((distribute_excess 10 [90] 0 5 [[], [], [], [], []]).map List.length).sum
        = 1 := by
  have hstep := C3_distribute_step_and_drain.1 10 [90, 91, 92] 0 5
    [1, 2, 3, 4, 5, 6, 7, 8] [] (by decide) (by decide) (by decide)
  have hdrain := C3_distribute_step_and_drain.2.1 10 [90] [[], [], [], [], []]
    0 5 (by decide) (by decide) (by decide)
  refine ⟨⟨by decide, by decide, by decide, ?_, ?_⟩, ?_⟩
  · exact hstep.1
  · exact hstep.2
  · simpa using hdrain

/-- C5: the Shuffler is a pure permutation: for every seed and every
shard content, the shuffled list is a permutation of the original (same
multiset of ids), and a successful shuffle_file call returns the
original row count while storing a permutation of what it read. -/
theorem C5_shuffle_permutation :
    ∀ (seed : Nat) (l : List Nat),
      (sample_shuffle seed l).Perm l
      ∧ ((sample_shuffle seed l : List Nat) : Multiset Nat) = (l : Multiset Nat)
      ∧ (shuffle_file seed ⟨l, false, false⟩).1.content.Perm l
      ∧ (shuffle_file seed ⟨l, false, false⟩).2 = l.length :=
  fun seed l =>
    ⟨sample_shuffle_perm seed l,
     Multiset.coe_eq_coe.mpr (sample_shuffle_perm seed l),
     sample_shuffle_perm seed l,
     rfl⟩

/-- C4 (amended): after a successful Balancer run, every source shard
that started above T keeps exactly its first T records and every source
shard at or below T is unchanged; every sink shard except the absorber
that STARTED at or below T ends at or below T.  (A sink that starts
above T is copied unchanged and therefore stays above T, refuting the
unconditional bound the claim states.) -/
theorem C4_balancer_capping :
    ∀ (T : Nat) (inputs outs : List (List Nat)), inputs.length = 10 →
      balance_main T inputs = Except.ok outs →
      (∀ i, i < 5 →
        outs.getD i [] = (if T < (inputs.getD i []).length
          then (inputs.getD i []).take T else inputs.getD i []))
      ∧ (∀ i, 5 ≤ i → i < 9 → (inputs.getD i []).length ≤ T →
          (outs.getD i []).length ≤ T) :=
  fun T inputs outs hlen hok =>
    ⟨fun i hi => balance_main_sources T inputs outs hlen hok i hi,
     fun i h5 h9 hle => by
       have hb := balance_main_sinks T inputs outs hlen hok i h5 h9
       omega⟩

/-- C4 witness: the capping statement at the balancer scenario input. -/
theorem C4_balancer_capping_witness :
    c3_inputs.length = 10
    ∧ balance_main 10 c3_inputs = Except.ok c3_outs
    ∧ c3_outs.getD 0 [] = (if 10 < (c3_inputs.getD 0 []).length
        then (c3_inputs.getD 0 []).take 10 else c3_inputs.getD 0 [])
    ∧ (c3_outs.getD 5 []).length ≤ 10 :=
  ⟨rfl, rfl,
   (C4_balancer_capping 10 c3_inputs c3_outs rfl rfl).1 0 (by decide),
   (C4_balancer_capping 10 c3_inputs c3_outs rfl rfl).2 5 (by decide)
     (by decide) (by decide)⟩

/-- C4 counterexample: with target 2, sink partition 05 starts with 3
records, is copied unchanged, and ends above the target — the claim that
every non-absorber sink ends at or below T fails. -/
theorem C4_sink_above_target :
    ¬ (∀ (outs : List (List Nat)), balance_main 2 c4_inputs = Except.ok outs →
        (outs.getD 5 []).length ≤ 2) := by
  intro h
  have h2 := h c4_outs rfl
  simp [c4_outs] at h2

/-- C6: the Streaming Merger tolerates missing per-account files: it
never aborts, logs one warning per missing file, writes exactly the rows
of the files actually found and read (in account order), and the total
count it returns is the sum of the counts of those files. -/
theorem C6_merge_missing_files :
    ∀ (files : List (PartFile Nat)),
      (merge_partition files).total_docs
          = ((files.filterMap found_rows).map List.length).sum
      ∧ (merge_partition files).warnings = files.countP is_missing
      ∧ (merge_partition files).rows = (files.filterMap found_rows).flatten :=
  fun files => merge_partition_spec files

/-- C7 (amended): the merge_partitions main loop pipelines per shard —
for each shard the four stage events occur in the order merge_start,
merge_end, shuffle_start, shuffle_end (so a shard is shuffled only after
its merge has fully written it), and shard i finishes shuffling before
shard j starts merging whenever i < j; the trace never repeats an event.
It is NOT the case that all shards are merged before any shard is
shuffled. -/
theorem C7_per_shard_pipelining :
    ∀ (n : Nat),
      (main_trace n).Nodup
      ∧ (∀ i, i < n → (partition_events i).Sublist (main_trace n))
      ∧ (∀ i j, i < j → j < n →
          [Ev.shuffle_end i, Ev.merge_start j].Sublist (main_trace n)) :=
  fun n =>
    ⟨main_trace_nodup n,
     fun i hi => main_trace_per_partition n i hi,
     fun i j hij hj => main_trace_sequential n i j hij hj⟩

/-- C7 witness: the per-shard ordering in a two-partition run. -/
theorem C7_per_shard_pipelining_witness :
    (main_trace 2).Nodup
    ∧ (partition_events 0).Sublist (main_trace 2)
    ∧ [Ev.shuffle_end 0, Ev.merge_start 1].Sublist (main_trace 2) :=
  ⟨(C7_per_shard_pipelining 2).1,
   (C7_per_shard_pipelining 2).2.1 0 (by decide),
   (C7_per_shard_pipelining 2).2.2 0 1 (by decide) (by decide)⟩

/-- C7 counterexample: already with two partitions the trace violates
Merge-all before Shuffle-all — partition 0 is shuffled before partition
1 is merged. -/
theorem C7_not_merge_all_first :
    ¬ merge_all_before_shuffle_all (main_trace 2) := by
  decide

/-- C8: a failed read or a failed write makes shuffle_file report zero
rows for that shard (leaving the file as it was in this model), a
successful shuffle reports the original row count, and the main loop
processes every partition regardless — one result per job, no abort. -/
theorem C8_shuffle_failure_tolerance :
    ∀ (seed : Nat) (f : ShardFile Nat) (jobs : List (PartitionJob Nat)),
      (f.read_fails = true → shuffle_file seed f = (f, 0))
      ∧ (f.read_fails = false → f.write_fails = true →
          shuffle_file seed f = (f, 0))
      ∧ (f.read_fails = false → f.write_fails = false →
          (shuffle_file seed f).2 = f.content.length)
      ∧ (main_run seed jobs).length = jobs.length := by
  intro seed f jobs
  refine ⟨?_, ?_, ?_, ?_⟩
  · intro h
    simp [shuffle_file, h]
  · intro h1 h2
    simp [shuffle_file, h1, h2]
  · intro h1 h2
    simp [shuffle_file, h1, h2]
  · exact List.length_map jobs _

/-- C8 witness: the three shuffle_file cases on a concrete shard. -/
theorem C8_shuffle_failure_witness :
    shuffle_file 42 (⟨[1, 2], true, false⟩ : ShardFile Nat) = (⟨[1, 2], true, false⟩, 0)
    ∧ shuffle_file 42 (⟨[1, 2], false, true⟩ : ShardFile Nat) = (⟨[1, 2], false, true⟩, 0)
    ∧ (shuffle_file 42 (⟨[1, 2], false, false⟩ : ShardFile Nat)).2 = 2 :=
  ⟨(C8_shuffle_failure_tolerance 42 ⟨[1, 2], true, false⟩ []).1 rfl,
   (C8_shuffle_failure_tolerance 42 ⟨[1, 2], false, true⟩ []).2.1 rfl rfl,
   (C8_shuffle_failure_tolerance 42 ⟨[1, 2], false, false⟩ []).2.2.1 rfl rfl⟩

/-- C9: in the filtering path, disagreeing row counts between the
queries table and the neighbors table abort with exit status 1 before
any output is produced; matching counts proceed into the filtering
loop. -/
theorem C9_count_mismatch_aborts :
    ∀ (α : Type) (queries : List (Nat × α))
      (neighbors : List (Option (List Nat))) (min_neighbors : Nat)
      (extract : α → String),
      (queries.length ≠ neighbors.length →
        filter_main queries neighbors min_neighbors extract = Except.error 1)
      ∧ (queries.length = neighbors.length →
        filter_main queries neighbors min_neighbors extract
          = Except.ok (filter_loop min_neighbors extract 0
              (queries.zip neighbors))) := by
  intro α queries neighbors min_neighbors extract
  constructor
  · intro h
    simp [filter_main, h]
  · intro h
    simp [filter_main, h]

/-- C9 witness: a one-row queries table against an empty neighbors table
aborts with exit status 1; matching one-row tables succeed. -/
theorem C9_count_mismatch_witness :
    (([((1 : Nat), (0 : Nat))].length ≠ ([] : List (Option (List Nat))).length)
      ∧ filter_main [((1 : Nat), (0 : Nat))] ([] : List (Option (List Nat))) 1
          (fun _ => "unknown") = Except.error 1)
    ∧ filter_main [((1 : Nat), (0 : Nat))] [some [7]] 1 (fun _ => "unknown")
        = Except.ok (filter_loop 1 (fun _ => "unknown") 0
            ([((1 : Nat), (0 : Nat))].zip [some [7]])) :=
  ⟨⟨by decide,
    (C9_count_mismatch_aborts Nat [(1, 0)] [] 1 (fun _ => "unknown")).1 (by decide)⟩,
   (C9_count_mismatch_aborts Nat [(1, 0)] [some [7]] 1 (fun _ => "unknown")).2 rfl⟩

/-- C10: when no source partition (00-04) exceeds the target, Phase 1
collects no excess and pl.concat of the empty list raises, aborting the
balancer before Phase 2 — the run does not complete with every shard
copied unchanged. -/
theorem C10_empty_excess_raises :
    ∀ (T : Nat) (inputs : List (List Nat)),
      (∀ df ∈ inputs.take 5, df.length ≤ T) →
      balance_main T inputs = Except.error "cannot concat empty list" :=
  fun T inputs h => balance_main_error T inputs h

/-- C10 witness: five at-target sources make the balancer raise. -/
theorem C10_empty_excess_witness :
    (∀ df ∈ ([[1], [1], [1], [1], [1], [], [], [], [], []] :
        List (List Nat)).take 5, df.length ≤ 3)
    ∧ balance_main 3 ([[1], [1], [1], [1], [1], [], [], [], [], []] :
        List (List Nat)) = Except.error "cannot concat empty list" :=
  ⟨by decide,
   C10_empty_excess_raises 3 [[1], [1], [1], [1], [1], [], [], [], [], []]
     (by decide)⟩

end VDB
